import Mathlib

/-!
Verification of the NativeJIT code-generation core against its specification.

Part A embeds `src/NativeJIT/ConditionalNode.h`: the code-generation methods
of `ConditionalNode` and `RelationalOperatorNode` are translated into pure
Lean functions over an explicit code-generator state.  Instruction emission
is modelled as an event trace; the behaviour of operand subtrees (whose node
classes live outside this file's sources) is abstracted as the event list
they emit, the number of labels they allocate, and the `Storage` they return.

Part B models the `FunctionSpecification` frame-layout subsystem.  Its
implementation is not among the given sources (only its unit tests are), so
those definitions are modelled from the specification text and are marked
`Modelled from the spec:` in their doc comments.
-/

namespace NativeJIT

/-- Physical register id (hardware register number). -/
abbrev Reg := Nat

/-- A `Storage` handle as seen by the conditional/relational lowering code:
its identity and the hardware register it occupies once direct.
`ConvertToDirect` on the real `Storage` may emit spill code; that emission is
recorded as a trace event, and the resulting direct register is `reg`. -/
structure Storage where
  sid : Nat
  reg : Reg
  deriving DecidableEq, Repr

/-- One emitted instruction or code-generator action, in emission order.
`gen` stands for the abstract code emitted by a subnode
(`CodeGenFlags` of a condition, `CodeGen` of a value operand); the remaining
constructors mirror the concrete emissions in `ConditionalNode.h`. -/
inductive Event where
  /-- Abstract code block emitted by a subnode outside these sources, identified by a tag. -/
  | gen (tag : Nat)
  /-- Emission of `EmitConditionalJump<JCC>(l)`: conditional jump keyed to condition code `cc` -/
  | jcc (cc : Nat) (l : Nat)
  /-- Emission of `Jmp(l)`: unconditional jump -/
  | jmp (l : Nat)
  /-- Emission of `PlaceLabel(l)`. -/
  | label (l : Nat)
  /-- Effect of `Storage::ConvertToDirect(committed)`: storage `sid` becomes direct in
  register `r`; `committed` records the bool argument (register may not be
  reassigned afterwards) -/
  | convert (sid : Nat) (committed : Bool) (r : Reg)
  /-- Emission of `Emit<OpCode::Mov>(dst, src)`, a register-to-register move. -/
  | mov (dst src : Reg)
  /-- Emission of `EmitImmediate<OpCode::Mov>(r, v)` with a boolean immediate. -/
  | movImm (r : Reg) (v : Bool)
  /-- Effect of `tree.Direct<bool>()`: allocation of the committed result register. -/
  | allocDirect (r : Reg)
  /-- Emission of `CodeGenHelpers::Emit<OpCode::Cmp>(code, leftReg, rightStorage)`. -/
  | cmp (leftReg : Reg) (rightSid : Nat)
  /-- Emission of `Emit<OpCode::Or>(r, r)`, a register with itself. -/
  | orReg (dst src : Reg)
  deriving DecidableEq, Repr

/-- The code-generator state threaded through `CodeGenValue`/`CodeGenFlags`:
the next label id `X64CodeGenerator::AllocateLabel` would hand out, and the
events emitted so far, oldest first. -/
structure CGState where
  nextLabel : Nat
  events : List Event
  deriving DecidableEq, Repr

/-- Append one emitted event. -/
def CGState.emit (s : CGState) (e : Event) : CGState :=
  { s with events := s.events ++ [e] }

/-- Translation of `X64CodeGenerator::AllocateLabel()`. -/
def CGState.allocateLabel (s : CGState) : Nat × CGState :=
  (s.nextLabel, { s with nextLabel := s.nextLabel + 1 })

/-- Translation of `Storage::ConvertToDirect(committed)`: records the conversion in the
trace and yields the direct hardware register. -/
def CGState.convertToDirect (s : CGState) (st : Storage) (committed : Bool) :
    Reg × CGState :=
  (st.reg, s.emit (.convert st.sid committed st.reg))

/-- Abstract behaviour of a value-producing operand's `CodeGen`: the events
it appends, the number of labels it allocates, and the `Storage` it returns.
This abstracts the virtual `Node<T>::CodeGen` whose implementations live
outside `ConditionalNode.h`. -/
structure NodeGen where
  events : List Event
  labels : Nat
  result : Storage

/-- Run an abstract operand generator on the current state. -/
def NodeGen.run (g : NodeGen) (s : CGState) : Storage × CGState :=
  (g.result, { nextLabel := s.nextLabel + g.labels, events := s.events ++ g.events })

/-- Abstract behaviour of a flag-producing condition's `CodeGenFlags`
(a `FlagExpressionNode` other than the relational node modelled below). -/
structure FlagGen where
  events : List Event
  labels : Nat

/-- Run an abstract condition generator on the current state. -/
def FlagGen.run (g : FlagGen) (s : CGState) : CGState :=
  { nextLabel := s.nextLabel + g.labels, events := s.events ++ g.events }

/-- Translation of `ConditionalNode<T, JCC>::CodeGenValue` (ConditionalNode.h, lines
157-196), translated line by line: emit the condition's flags, allocate
label `l1` and emit the conditional jump to it, generate the false branch
and convert it to a committed direct register, allocate label `l2` and jump
to it, place `l1`, generate the true branch, convert it to a non-committed
direct register, move into the false register when the hardware registers
differ, place `l2`, and return the false branch's `Storage`. -/
def ConditionalNode.CodeGenValue (jcc : Nat) (condition : FlagGen)
    (trueExpression falseExpression : NodeGen) (s0 : CGState) :
    Storage × CGState :=
  let s1 := condition.run s0
  let (l1, s2) := s1.allocateLabel
  let s3 := s2.emit (.jcc jcc l1)
  let (falseValue, s4) := falseExpression.run s3
  let (rFalse, s5) := s4.convertToDirect falseValue true
  let (l2, s6) := s5.allocateLabel
  let s7 := s6.emit (.jmp l2)
  let s8 := s7.emit (.label l1)
  let (trueValue, s9) := trueExpression.run s8
  let (rTrue, s10) := s9.convertToDirect trueValue false
  let s11 := if rTrue = rFalse then s10 else s10.emit (.mov rFalse rTrue)
  let s12 := s11.emit (.label l2)
  (falseValue, s12)

/-- Expression-graph shape for the labeling pass.  A `leaf` abstracts any
node class outside `ConditionalNode.h`: its `LabelSubtree` returns `count`
and records one register-count assignment for its own id.  The other two
constructors are the nodes defined in `ConditionalNode.h`. -/
inductive LNode where
  | leaf (id : Nat) (count : Nat)
  | conditional (id : Nat) (condition trueExpression falseExpression : LNode)
  | relational (id : Nat) (left right : LNode)

/-- The labeling pass.  Modelled from the spec: the `Node` base class holding
`SetRegisterCount`/`GetRegisterCount` and the binary combining function
`ComputeRegisterCount` are not among the given sources, so the register-count
field is plain storage (the returned number is the number set, and the trace
records each `SetRegisterCount` call as an `(id, count)` pair in call order)
and the binary combining function is an explicit parameter `combine`.
The `conditional` and `relational` cases are translated from
`ConditionalNode<T, JCC>::LabelSubtree` (lines 129-141: label condition, true
expression, false expression, each as a left child, set the maximum) and
`RelationalOperatorNode<T, JCC>::LabelSubtree` (lines 217-227: label the left
operand as a left child, the right as a right child, set `combine`). -/
def labelSubtree (combine : Nat → Nat → Nat) :
    LNode → Bool → Nat × List (Nat × Nat)
  | .leaf i c, _ => (c, [(i, c)])
  | .conditional i c t f, _ =>
      let (condition, tr1) := labelSubtree combine c true
      let (trueExpression, tr2) := labelSubtree combine t true
      let (falseExpression, tr3) := labelSubtree combine f true
      let n := max condition (max trueExpression falseExpression)
      (n, tr1 ++ tr2 ++ tr3 ++ [(i, n)])
  | .relational i l r, _ =>
      let (left, tr1) := labelSubtree combine l true
      let (right, tr2) := labelSubtree combine r false
      let n := combine left right
      (n, tr1 ++ tr2 ++ [(i, n)])

/-- The environment a `RelationalOperatorNode` sees: the labeled register
counts `GetRegisterCount()` reports for its two operands, and the abstract
`CodeGen` behaviour of each operand. -/
structure RelEnv where
  leftCount : Nat
  rightCount : Nat
  leftGen : NodeGen
  rightGen : NodeGen

/-- Result of `RelationalOperatorNode::CodeGenFlags`: either normal
completion or a raised host-language exception (`throw 0` in the source).
Both carry the code-generator state at that point and the node's remaining
cached `Storage` (`none` once released). -/
inductive FlagsResult where
  | ok (s : CGState) (cache : Option Storage)
  | raised (s : CGState) (cache : Option Storage)
  deriving DecidableEq, Repr

/-- Translation of `RelationalOperatorNode<T, JCC>::CodeGenFlags` (ConditionalNode.h, lines
271-307).  When the node's result is cached: take the cached `Storage`,
release the cache, emit `Or` of its direct register with itself, and throw a
host-language exception.  Otherwise: evaluate the operand with the larger
labeled register count first (the left one on ties, since the source tests
`l >= r`), then emit `Cmp` of the left value (converted to a non-committed
direct register) against the right storage. -/
def RelationalOperatorNode.CodeGenFlags (env : RelEnv)
    (cache : Option Storage) (s0 : CGState) : FlagsResult :=
  match cache with
  | some result =>
      let cache1 : Option Storage := none
      let direct := result.reg
      let s1 := s0.emit (.orReg direct direct)
      .raised s1 cache1
  | none =>
      let l := env.leftCount
      let r := env.rightCount
      if l ≥ r then
        let (sLeft, s1) := env.leftGen.run s0
        let (sRight, s2) := env.rightGen.run s1
        let (rLeft, s3) := s2.convertToDirect sLeft false
        .ok (s3.emit (.cmp rLeft sRight.sid)) none
      else
        let (sRight, s1) := env.rightGen.run s0
        let (sLeft, s2) := env.leftGen.run s1
        let (rLeft, s3) := s2.convertToDirect sLeft false
        .ok (s3.emit (.cmp rLeft sRight.sid)) none

/-- Result of `RelationalOperatorNode::CodeGenValue`: the returned boolean
`Storage` on normal completion, or a propagated exception. -/
inductive ValueResult where
  | ok (st : Storage) (s : CGState) (cache : Option Storage)
  | raised (s : CGState) (cache : Option Storage)
  deriving DecidableEq, Repr

/-- Translation of `RelationalOperatorNode<T, JCC>::CodeGenValue` (ConditionalNode.h, lines
242-268): allocate the `conditionIsTrue` and `testCompleted` labels, run
`CodeGenFlags` (whose exception, if any, propagates), allocate the committed
boolean result register via `tree.Direct<bool>()` (given here as the
abstract `result` storage the tree hands out), emit the conditional jump
keyed to `JCC`, move `false` into the result register, jump to completion,
place the condition-true label, move `true` into the result register, place
the completion label, and return the result storage. -/
def RelationalOperatorNode.CodeGenValue (jcc : Nat) (env : RelEnv)
    (cache : Option Storage) (result : Storage) (s0 : CGState) : ValueResult :=
  let (conditionIsTrue, s1) := s0.allocateLabel
  let (testCompleted, s2) := s1.allocateLabel
  match RelationalOperatorNode.CodeGenFlags env cache s2 with
  | .raised s c => .raised s c
  | .ok s3 c =>
      let s4 := s3.emit (.allocDirect result.reg)
      let s5 := s4.emit (.jcc jcc conditionIsTrue)
      let s6 := s5.emit (.movImm result.reg false)
      let s7 := s6.emit (.jmp testCompleted)
      let s8 := s7.emit (.label conditionIsTrue)
      let s9 := s8.emit (.movImm result.reg true)
      let s10 := s9.emit (.label testCompleted)
      .ok result s10 c

/-- Translation of `Node::IncrementParentCount` over a table of parent counts indexed by
node id. -/
def incrementParentCount (counts : Nat → Nat) (id : Nat) : Nat → Nat :=
  fun i => if i = id then counts i + 1 else counts i

/-- Translation of `RelationalOperatorNode<T, JCC>::RelationalOperatorNode` (lines 204-214)
acting on the parent-count table: the constructor body calls
`IncrementParentCount` on the left operand and then on the right operand. -/
def RelationalOperatorNode.construct (counts : Nat → Nat)
    (leftId rightId : Nat) : Nat → Nat :=
  incrementParentCount (incrementParentCount counts leftId) rightId

/-- Translation of `ConditionalNode<T, JCC>::ConditionalNode` (lines 116-126) acting on the
parent-count table: the constructor body only stores the three operand
references and performs no `IncrementParentCount` call. -/
def ConditionalNode.construct (counts : Nat → Nat)
    (_conditionId _trueId _falseId : Nat) : Nat → Nat :=
  counts

/-- C1: for every `ConditionalNode`, `CodeGenValue` lowers the conditional in
order: condition flags, conditional jump keyed to the node's condition code
targeting the label guarding the true branch, false branch generated in-line
and converted to a committed direct register, unconditional jump to the
convergence label, the true-branch label, the true branch's code converted to
a (non-committed) direct register, a register-unifying move exactly when the
true result's hardware register differs from the false result's, and the
convergence label; the returned value is the false branch's `Storage`. -/
theorem ConditionalNode_CodeGenValue_lowering (jcc : Nat) (condition : FlagGen)
    (trueExpression falseExpression : NodeGen) (s0 : CGState) :
    ConditionalNode.CodeGenValue jcc condition trueExpression falseExpression s0 =
      (falseExpression.result,
       { nextLabel := s0.nextLabel + condition.labels + 1 + falseExpression.labels
                        + 1 + trueExpression.labels,
         events := s0.events ++ condition.events
           ++ [Event.jcc jcc (s0.nextLabel + condition.labels)]
           ++ falseExpression.events
           ++ [Event.convert falseExpression.result.sid true falseExpression.result.reg]
           ++ [Event.jmp (s0.nextLabel + condition.labels + 1 + falseExpression.labels),
               Event.label (s0.nextLabel + condition.labels)]
           ++ trueExpression.events
           ++ [Event.convert trueExpression.result.sid false trueExpression.result.reg]
           ++ (if trueExpression.result.reg = falseExpression.result.reg then []
               else [Event.mov falseExpression.result.reg trueExpression.result.reg])
           ++ [Event.label (s0.nextLabel + condition.labels + 1 + falseExpression.labels)] }) := by
  simp only [ConditionalNode.CodeGenValue, FlagGen.run, NodeGen.run, CGState.emit,
    CGState.allocateLabel, CGState.convertToDirect]
  split
  · simp [List.append_assoc]
  · simp [List.append_assoc]

/-- C5: for every `ConditionalNode`, `LabelSubtree` labels the condition,
true-expression, and false-expression subtrees in that order (their
register-count assignments appear in that order in the trace, followed by
this node's own assignment) and sets this node's register count to the
maximum of the three subtree counts, returning that maximum. -/
theorem ConditionalNode_LabelSubtree_max (combine : Nat → Nat → Nat)
    (i : Nat) (c t f : LNode) (isLeftChild : Bool) :
    labelSubtree combine (.conditional i c t f) isLeftChild =
      (max (labelSubtree combine c true).1
         (max (labelSubtree combine t true).1 (labelSubtree combine f true).1),
       (labelSubtree combine c true).2 ++ (labelSubtree combine t true).2
         ++ (labelSubtree combine f true).2
         ++ [(i, max (labelSubtree combine c true).1
                (max (labelSubtree combine t true).1
                  (labelSubtree combine f true).1))]) := by
  simp [labelSubtree]

/-- Helper: the uncached branch of `RelationalOperatorNode::CodeGenFlags`
in closed form. -/
lemma codeGenFlags_none_eq (env : RelEnv) (s0 : CGState) :
    RelationalOperatorNode.CodeGenFlags env none s0 =
      .ok { nextLabel := s0.nextLabel + env.leftGen.labels + env.rightGen.labels,
            events := s0.events
              ++ (if env.leftCount ≥ env.rightCount
                  then env.leftGen.events ++ env.rightGen.events
                  else env.rightGen.events ++ env.leftGen.events)
              ++ [Event.convert env.leftGen.result.sid false env.leftGen.result.reg,
                  Event.cmp env.leftGen.result.reg env.rightGen.result.sid] }
        none := by
  simp only [RelationalOperatorNode.CodeGenFlags, NodeGen.run, CGState.emit,
    CGState.convertToDirect]
  split
  · simp [List.append_assoc]
  · simp [List.append_assoc]
    omega

/-- C4: for every `RelationalOperatorNode` whose result is not cached,
`CodeGenFlags` evaluates the operand with the larger labeled register count
first (the left operand first when the counts are equal, since the source
tests `l >= r`), then converts the left value to a direct register and emits
the single compare against the right storage. -/
theorem RelationalOperatorNode_CodeGenFlags_order (env : RelEnv) (s0 : CGState) :
    RelationalOperatorNode.CodeGenFlags env none s0 =
      .ok { nextLabel := s0.nextLabel + env.leftGen.labels + env.rightGen.labels,
            events := s0.events
              ++ (if env.leftCount ≥ env.rightCount
                  then env.leftGen.events ++ env.rightGen.events
                  else env.rightGen.events ++ env.leftGen.events)
              ++ [Event.convert env.leftGen.result.sid false env.leftGen.result.reg,
                  Event.cmp env.leftGen.result.reg env.rightGen.result.sid] }
        none :=
  codeGenFlags_none_eq env s0

/-- C3: when a `RelationalOperatorNode`'s result is cached, `CodeGenFlags`
releases the cache, emits only the `Or` of the cached direct register with
itself (a self-comparison; no compare against the operands and no
reconstruction of the node's original condition code), and raises a
host-language exception, so the cached `Storage` is consumed although the
operation fails. -/
theorem RelationalOperatorNode_CodeGenFlags_cached (env : RelEnv)
    (st : Storage) (s0 : CGState) :
    RelationalOperatorNode.CodeGenFlags env (some st) s0 =
      .raised { s0 with events := s0.events ++ [Event.orReg st.reg st.reg] }
        none := by
  simp [RelationalOperatorNode.CodeGenFlags, CGState.emit]

/-- C2: for every `RelationalOperatorNode` (non-cached), `CodeGenValue`
evaluates both operands (higher-register-pressure operand first), emits one
compare, allocates the committed boolean result register after the compare
and before the conditional jump, and emits exactly the pattern: conditional
jump keyed to the node's condition code, move `false` (0) into the result
register, jump to the completion label, condition-true label, move `true`
(1) into the result register, completion label; the node returns the result
storage. -/
theorem RelationalOperatorNode_CodeGenValue_pattern (jcc : Nat) (env : RelEnv)
    (result : Storage) (s0 : CGState) :
    RelationalOperatorNode.CodeGenValue jcc env none result s0 =
      .ok result
        { nextLabel := s0.nextLabel + 2 + env.leftGen.labels + env.rightGen.labels,
          events := s0.events
            ++ (if env.leftCount ≥ env.rightCount
                then env.leftGen.events ++ env.rightGen.events
                else env.rightGen.events ++ env.leftGen.events)
            ++ [Event.convert env.leftGen.result.sid false env.leftGen.result.reg,
                Event.cmp env.leftGen.result.reg env.rightGen.result.sid]
            ++ [Event.allocDirect result.reg,
                Event.jcc jcc s0.nextLabel,
                Event.movImm result.reg false,
                Event.jmp (s0.nextLabel + 1),
                Event.label s0.nextLabel,
                Event.movImm result.reg true,
                Event.label (s0.nextLabel + 1)] }
        none := by
  simp only [RelationalOperatorNode.CodeGenValue, CGState.allocateLabel]
  rw [codeGenFlags_none_eq]
  simp only [CGState.emit]
  simp [List.append_assoc]

/-- C10: constructing a `RelationalOperatorNode` increments the parent count
of each operand node by exactly one (so a node used as both operands gains
two) and changes no other node's count, while constructing a
`ConditionalNode` leaves every parent count unchanged. -/
theorem Constructor_parentCounts (counts : Nat → Nat)
    (leftId rightId conditionId trueId falseId i : Nat) :
    RelationalOperatorNode.construct counts leftId rightId i
        = counts i + (if i = leftId then 1 else 0) + (if i = rightId then 1 else 0)
      ∧ ConditionalNode.construct counts conditionId trueId falseId = counts := by
  constructor
  · simp only [RelationalOperatorNode.construct, incrementParentCount]
    split <;> split <;> omega
  · rfl

/-!
Part B: the `FunctionSpecification` frame-layout subsystem.  Its
implementation is code of this repository that is not among the given
sources (only `FunctionBufferUnitTest.cpp` is), so the definitions below are
modelled from the specification text (sections 4.1, 6 and 8) and checked
against the expectations recorded in the unit tests.  Prolog byte offsets of
unwind codes are not modelled: the instruction encoder that determines them
is declared out of scope by the specification.
-/

/-- Translation of `FunctionSpecification::BaseRegisterType`: the frame-pointer policy. -/
inductive BaseRegisterType where
  | unused
  | setRbpToOriginalRsp
  deriving DecidableEq, Repr

/-- Register id of RBP in the x64 encoding used by the tests
(`rbp.GetId()`). -/
def rbpId : Nat := 5

/-- The register ids named by a 16-bit save mask, ascending (the tests walk
masks with `BitOp::GetLowestBitSet`). -/
def maskToIds (mask : Nat) : List Nat :=
  (List.range 16).filter (fun i => mask.testBit i)

/-- Modelled from the spec: the computed stack-frame layout, in 8-byte
slots.  Spec 4.1 fixes the allocation order: parameter (shadow) slots for
outgoing calls, one slot per saved nonvolatile integer register (one of
which doubles as the base-register save when the frame-pointer policy
requires it), padding so the vector-save area starts 16-byte aligned, 16
bytes per saved vector register, the local slots, and trailing padding so
the total frame keeps the stack 16-byte aligned at entry, counting the
pushed return address; even an empty function reserves one slot. -/
structure FrameLayout where
  parameterSlots : Nat
  rxxIds : List Nat
  xmmIds : List Nat
  xmmStartSlot : Nat
  totalSlots : Nat
  deriving Repr

/-- Modelled from the spec: frame-layout computation from a function's
resource requirements (`FunctionSpecification`'s constructor inputs:
max outgoing-call argument count with −1 meaning no calls, local stack-slot
count, nonvolatile integer and vector save masks, frame-pointer policy).
With any calls present at least the four register-passed argument homes are
reserved (the tests expect 4 slots for max 1 argument and 6 for max 6). -/
def computeLayout (maxFunctionCallParameters : Int) (localStackSlotCount : Nat)
    (rxxSavesMask xmmSavesMask : Nat) (baseRegisterType : BaseRegisterType) :
    FrameLayout :=
  let parameterSlots :=
    if maxFunctionCallParameters < 0 then 0
    else max maxFunctionCallParameters.toNat 4
  let savedRxxMask :=
    rxxSavesMask |||
      (match baseRegisterType with
       | .setRbpToOriginalRsp => 2 ^ rbpId
       | .unused => 0)
  let rxxIds := maskToIds savedRxxMask
  let xmmIds := maskToIds xmmSavesMask
  let slotsBeforeXmm := parameterSlots + rxxIds.length
  let xmmPad := if xmmIds.length ≠ 0 ∧ slotsBeforeXmm % 2 = 1 then 1 else 0
  let xmmStartSlot := slotsBeforeXmm + xmmPad
  let slotsBeforeTrailing := xmmStartSlot + 2 * xmmIds.length + localStackSlotCount
  let totalSlots :=
    if slotsBeforeTrailing % 2 = 0 then slotsBeforeTrailing + 1
    else slotsBeforeTrailing
  ⟨parameterSlots, rxxIds, xmmIds, xmmStartSlot, totalSlots⟩

/-- One register save slot assignment: kind (integer or 128-bit vector),
register id, and the slot (8-byte units) above the decremented stack
pointer where it is saved. -/
structure SaveEntry where
  isXmm : Bool
  regId : Nat
  slot : Nat
  deriving DecidableEq, Repr

/-- Assign consecutive save slots (spaced `step` slots apart, starting at
`startSlot`) to a list of register ids. -/
def buildSaves (isXmm : Bool) (step startSlot : Nat) : List Nat → List SaveEntry
  | [] => []
  | r :: rest => ⟨isXmm, r, startSlot⟩ :: buildSaves isXmm step (startSlot + step) rest

/-- Modelled from the spec: the register saves of a frame, integer saves in
declaration (ascending-id) order directly after the parameter slots, then
vector saves from the 16-byte aligned vector area. -/
def FrameLayout.saves (L : FrameLayout) : List SaveEntry :=
  buildSaves false 1 L.parameterSlots L.rxxIds
    ++ buildSaves true 2 L.xmmStartSlot L.xmmIds

/-- Modelled from the spec: the prolog/epilog instruction forms of spec 4.1
(stack-pointer adjustment, integer and vector register saves/restores
addressed off the stack pointer, the base-register recompute, return).
Byte encodings are the out-of-scope encoder's concern. -/
inductive FrameInstr where
  /-- Instruction `sub rsp, bytes`. -/
  | subRsp (bytes : Nat)
  /-- Instruction `add rsp, bytes`. -/
  | addRsp (bytes : Nat)
  /-- Instruction `mov [rsp + byteOffset], r64`. -/
  | saveRxx (regId : Nat) (byteOffset : Nat)
  /-- Instruction `mov r64, [rsp + byteOffset]`. -/
  | restoreRxx (regId : Nat) (byteOffset : Nat)
  /-- Instruction `movaps [rsp + byteOffset], xmm`. -/
  | saveXmm (regId : Nat) (byteOffset : Nat)
  /-- Instruction `movaps xmm, [rsp + byteOffset]`. -/
  | restoreXmm (regId : Nat) (byteOffset : Nat)
  /-- Instruction `lea rbp, [rsp + bytes]`. -/
  | leaRbp (bytes : Nat)
  /-- Instruction `ret`. -/
  | ret
  deriving DecidableEq, Repr

/-- The save instruction of one save entry. -/
def SaveEntry.saveInstr (e : SaveEntry) : FrameInstr :=
  if e.isXmm then .saveXmm e.regId (8 * e.slot) else .saveRxx e.regId (8 * e.slot)

/-- The restore instruction of one save entry. -/
def SaveEntry.restoreInstr (e : SaveEntry) : FrameInstr :=
  if e.isXmm then .restoreXmm e.regId (8 * e.slot) else .restoreRxx e.regId (8 * e.slot)

/-- Modelled from the spec: the prolog — stack-pointer decrement, register
saves in declaration order, and (when the policy asks for it) the
base-register recompute, which the tests place after the saves. -/
def makeProlog (L : FrameLayout) (baseRegisterType : BaseRegisterType) :
    List FrameInstr :=
  .subRsp (8 * L.totalSlots) :: L.saves.map SaveEntry.saveInstr
    ++ (match baseRegisterType with
        | .setRbpToOriginalRsp => [.leaRbp (8 * L.totalSlots)]
        | .unused => [])

/-- Modelled from the spec: the epilog — the exact reverse sequence:
register restores, base-register restore among them, stack-pointer
increment, return. -/
def makeEpilog (L : FrameLayout) (_baseRegisterType : BaseRegisterType) :
    List FrameInstr :=
  L.saves.reverse.map SaveEntry.restoreInstr
    ++ [.addRsp (8 * L.totalSlots), .ret]

/-- The unwind operations used by this frame model (`UnwindCodeOp` in the
tests). -/
inductive UnwindCodeOp where
  | allocLarge
  | allocSmall
  | saveNonvol
  | saveXmm128
  deriving DecidableEq, Repr

/-- Modelled from the spec: one 2-byte unwind-code entry — either an
operation entry (operation kind plus operation-specific info nibble) or the
second slot of a two-slot operation, holding a 16-bit value.  The code byte
offset within the prolog is determined by the out-of-scope instruction
encoder and is not modelled. -/
inductive UnwindCode where
  | code (op : UnwindCodeOp) (opInfo : Nat)
  | data (value : Nat)
  deriving DecidableEq, Repr

/-- Fixed unwind-info header size in bytes (`sizeof(UnwindInfo) -
sizeof(UnwindCode)` in the tests). -/
def unwindHeaderSize : Nat := 4

/-- Size of one unwind-code entry in bytes. -/
def unwindCodeSize : Nat := 2

/-- Modelled from the spec: the allocation unwind codes for a frame of
`totalSlots` 8-byte slots — the small encoding (`info = slot count − 1`)
for totals up to the platform threshold of 128 bytes, otherwise a large
allocation consuming a second entry holding the slot count; slot counts
beyond the second entry's 16-bit range are an unrepresentable
configuration. -/
def allocCodes (totalSlots : Nat) : Except String (List UnwindCode) :=
  if totalSlots ≤ 16 then
    .ok [.code .allocSmall (totalSlots - 1)]
  else if totalSlots ≤ 65535 then
    .ok [.code .allocLarge 0, .data totalSlots]
  else
    .error ("frame allocation exceeds encodable range")

/-- Modelled from the spec: the two-slot unwind code of one register save —
operation and register id, then the slot offset from the stack pointer in
quadwords for integer saves and in 16-byte units for vector saves. -/
def SaveEntry.unwindCodes (e : SaveEntry) : List UnwindCode :=
  if e.isXmm then [.code .saveXmm128 e.regId, .data (8 * e.slot / 16)]
  else [.code .saveNonvol e.regId, .data e.slot]

/-- Modelled from the spec: the unwind-code array — one code group per
prolog action (the allocation, then each register save), stored in reverse
of prolog emission order because the unwinder replays the epilog
direction. -/
def unwindCodeArray (L : FrameLayout) : Except String (List UnwindCode) :=
  match allocCodes L.totalSlots with
  | .error e => .error e
  | .ok alloc =>
      .ok ((alloc :: L.saves.map SaveEntry.unwindCodes).reverse.flatten)

/-- Modelled from the spec: the unwind-info record — version 1, flags 0 for
a leaf handler-less frame, frame-register id 0 and frame offset 0 when
unused, the entry count, and the entries. -/
structure UnwindInfo where
  version : Nat
  flags : Nat
  frameRegister : Nat
  frameOffset : Nat
  countOfCodes : Nat
  codes : List UnwindCode
  deriving Repr

/-- Modelled from the spec: the `FunctionSpecification` outputs the buffer
and tests consume — total frame byte size (`GetOffsetToOriginalRsp`),
prolog and epilog sequences, and the unwind-info blob with its declared
byte length. -/
structure FunctionSpecification where
  offsetToOriginalRsp : Nat
  prolog : List FrameInstr
  epilog : List FrameInstr
  unwindInfo : UnwindInfo
  unwindInfoByteLength : Nat

/-- Modelled from the spec: `FunctionSpecification`'s constructor.  The
declared blob length pads the entry array to an even entry count (the one
optional alignment entry); a configuration whose unwind data is not
representable (allocation beyond the large-code range, or an entry count
that does not fit the count byte) is a fatal configuration error reported
to the diagnostics sink, here an `Except.error`. -/
def FunctionSpecification.make (maxFunctionCallParameters : Int)
    (localStackSlotCount : Nat) (rxxSavesMask xmmSavesMask : Nat)
    (baseRegisterType : BaseRegisterType) :
    Except String FunctionSpecification :=
  let L := computeLayout maxFunctionCallParameters localStackSlotCount
    rxxSavesMask xmmSavesMask baseRegisterType
  match unwindCodeArray L with
  | .error e => .error e
  | .ok codes =>
      if codes.length > 255 then .error ("too many unwind codes")
      else
        .ok { offsetToOriginalRsp := 8 * L.totalSlots
              prolog := makeProlog L baseRegisterType
              epilog := makeEpilog L baseRegisterType
              unwindInfo :=
                { version := 1
                  flags := 0
                  frameRegister := 0
                  frameOffset := 0
                  countOfCodes := codes.length
                  codes := codes }
              unwindInfoByteLength :=
                unwindHeaderSize + unwindCodeSize * codes.length
                  + (if codes.length % 2 = 1 then unwindCodeSize else 0) }

/-- Machine state for the frame-effect semantics: the stack pointer, the
integer register file, the vector register file (a 128-bit register as one
abstract value), and quadword/128-bit memory addressed by byte address. -/
structure Machine where
  rsp : Int
  rxx : Nat → Int
  xmm : Nat → Int
  mem : Int → Int

/-- Small-step semantics of one frame instruction. -/
def execInstr (m : Machine) : FrameInstr → Machine
  | .subRsp n => { m with rsp := m.rsp - n }
  | .addRsp n => { m with rsp := m.rsp + n }
  | .saveRxx r off =>
      { m with mem := fun a => if a = m.rsp + off then m.rxx r else m.mem a }
  | .restoreRxx r off =>
      { m with rxx := fun i => if i = r then m.mem (m.rsp + off) else m.rxx i }
  | .saveXmm r off =>
      { m with mem := fun a => if a = m.rsp + off then m.xmm r else m.mem a }
  | .restoreXmm r off =>
      { m with xmm := fun i => if i = r then m.mem (m.rsp + off) else m.xmm i }
  | .leaRbp n => { m with rxx := fun i => if i = rbpId then m.rsp + n else m.rxx i }
  | .ret => m

/-- Run a frame instruction sequence. -/
def execCode (code : List FrameInstr) (m : Machine) : Machine :=
  code.foldl execInstr m

/-- Prolog, then a body that overwrites the integer and vector register
files arbitrarily (leaving the stack pointer and the frame's memory alone,
as generated bodies do), then the epilog. -/
def runFrame (maxFunctionCallParameters : Int) (localStackSlotCount : Nat)
    (rxxSavesMask xmmSavesMask : Nat) (baseRegisterType : BaseRegisterType)
    (bodyRxx bodyXmm : Nat → Int) (m0 : Machine) : Machine :=
  let L := computeLayout maxFunctionCallParameters localStackSlotCount
    rxxSavesMask xmmSavesMask baseRegisterType
  let m1 := execCode (makeProlog L baseRegisterType) m0
  let m2 := { m1 with rxx := bodyRxx, xmm := bodyXmm }
  execCode (makeEpilog L baseRegisterType) m2

/-- Read one register of either file. -/
def Machine.readReg (m : Machine) (k : Bool) (i : Nat) : Int :=
  if k then m.xmm i else m.rxx i

/-- Every entry produced by `buildSaves` carries the requested kind, a
register from the id list, and a slot in the assigned range. -/
lemma mem_buildSaves {k : Bool} {step : Nat} (hstep : 0 < step) :
    ∀ (start : Nat) (ids : List Nat) (e : SaveEntry),
      e ∈ buildSaves k step start ids →
      e.isXmm = k ∧ e.regId ∈ ids ∧ start ≤ e.slot ∧
        e.slot < start + step * ids.length := by
  intro start ids
  induction ids generalizing start with
  | nil => intro e he; simp [buildSaves] at he
  | cons r rest ih =>
      intro e he
      simp only [buildSaves, List.mem_cons] at he
      rcases he with rfl | he
      · refine ⟨rfl, by simp, le_refl _, ?_⟩
        simp only [List.length_cons]
        nlinarith
      · obtain ⟨h1, h2, h3, h4⟩ := ih (start + step) e he
        refine ⟨h1, by simp [h2], by omega, ?_⟩
        simp only [List.length_cons]
        have : step * (rest.length + 1) = step * rest.length + step := by ring
        omega

/-- Every register in the id list receives a save entry. -/
lemma buildSaves_mem_of {k : Bool} {step : Nat} :
    ∀ (start : Nat) (ids : List Nat) (r : Nat), r ∈ ids →
      ∃ s, (⟨k, r, s⟩ : SaveEntry) ∈ buildSaves k step start ids := by
  intro start ids
  induction ids generalizing start with
  | nil => intro r hr; simp at hr
  | cons r0 rest ih =>
      intro r hr
      rcases List.mem_cons.mp hr with rfl | hr
      · exact ⟨start, by simp [buildSaves]⟩
      · obtain ⟨s, hs⟩ := ih (start + step) r hr
        exact ⟨s, by simp [buildSaves, hs]⟩

/-- Lemma: `buildSaves` assigns strictly increasing slots. -/
lemma buildSaves_pairwise {k : Bool} {step : Nat} (hstep : 0 < step) :
    ∀ (start : Nat) (ids : List Nat),
      (buildSaves k step start ids).Pairwise (fun a b => a.slot < b.slot) := by
  intro start ids
  induction ids generalizing start with
  | nil => simp [buildSaves]
  | cons r rest ih =>
      refine List.pairwise_cons.mpr ⟨?_, ih (start + step)⟩
      intro e he
      have := (mem_buildSaves hstep (start + step) rest e he).2.2.1
      simpa using lt_of_lt_of_le (by omega : start < start + step) this

/-- The save entries of a layout whose vector area starts at or after the
end of the integer-save area have pairwise distinct (indeed increasing)
slots. -/
lemma saves_pairwise_of (L : FrameLayout)
    (h : L.parameterSlots + L.rxxIds.length ≤ L.xmmStartSlot) :
    L.saves.Pairwise (fun a b => a.slot < b.slot) := by
  unfold FrameLayout.saves
  rw [List.pairwise_append]
  refine ⟨buildSaves_pairwise one_pos _ _, buildSaves_pairwise two_pos _ _, ?_⟩
  intro a ha b hb
  have hub := (mem_buildSaves one_pos _ _ a ha).2.2.2
  have hlb := (mem_buildSaves two_pos _ _ b hb).2.2.1
  omega

/-- The vector area of a computed layout starts at or after the end of the
integer-save area. -/
lemma computeLayout_xmmStart (maxFunctionCallParameters : Int)
    (localStackSlotCount rxxSavesMask xmmSavesMask : Nat)
    (baseRegisterType : BaseRegisterType) :
    (computeLayout maxFunctionCallParameters localStackSlotCount rxxSavesMask
        xmmSavesMask baseRegisterType).parameterSlots
      + (computeLayout maxFunctionCallParameters localStackSlotCount rxxSavesMask
          xmmSavesMask baseRegisterType).rxxIds.length
      ≤ (computeLayout maxFunctionCallParameters localStackSlotCount rxxSavesMask
          xmmSavesMask baseRegisterType).xmmStartSlot := by
  simp only [computeLayout]
  omega

/-- Overwrite one memory cell. -/
def Machine.storeAt (m : Machine) (addr v : Int) : Machine :=
  { m with mem := fun a => if a = addr then v else m.mem a }

/-- Executing one save instruction only writes memory: it stores the saved
register's current value at its slot address. -/
lemma execInstr_saveInstr (e : SaveEntry) (m : Machine) :
    execInstr m e.saveInstr =
      m.storeAt (m.rsp + 8 * e.slot) (m.readReg e.isXmm e.regId) := by
  rcases e with ⟨k, r, s⟩
  cases k <;> simp [SaveEntry.saveInstr, execInstr, Machine.readReg, Machine.storeAt]

/-- Executing a list of save instructions preserves the stack pointer and
both register files. -/
lemma exec_saves_regs (l : List SaveEntry) :
    ∀ m : Machine,
      (execCode (l.map SaveEntry.saveInstr) m).rsp = m.rsp ∧
      (execCode (l.map SaveEntry.saveInstr) m).rxx = m.rxx ∧
      (execCode (l.map SaveEntry.saveInstr) m).xmm = m.xmm := by
  induction l with
  | nil => intro m; simp [execCode]
  | cons e rest ih =>
      intro m
      simp only [List.map_cons, execCode, List.foldl_cons] at *
      rw [execInstr_saveInstr]
      exact ih _

/-- Executing save instructions leaves memory unchanged at any address none
of them writes. -/
lemma exec_saves_mem_other (l : List SaveEntry) :
    ∀ (m : Machine) (a : Int), (∀ e ∈ l, m.rsp + 8 * e.slot ≠ a) →
      (execCode (l.map SaveEntry.saveInstr) m).mem a = m.mem a := by
  induction l with
  | nil => intro m a _; simp [execCode]
  | cons e rest ih =>
      intro m a h
      simp only [List.map_cons, execCode, List.foldl_cons]
      rw [execInstr_saveInstr]
      have := ih (m.storeAt (m.rsp + 8 * e.slot) (m.readReg e.isXmm e.regId)) a (by
        intro e' he'
        exact h e' (List.mem_cons_of_mem _ he'))
      simp only [execCode] at this
      rw [this]
      have hne : a ≠ m.rsp + 8 * e.slot :=
        fun hEq => h e (List.mem_cons_self e rest) hEq.symm
      simp [Machine.storeAt, hne]

/-- After executing a list of save instructions with pairwise distinct
slots, each entry's slot address holds the register value the machine had
before the stores. -/
lemma exec_saves_mem (l : List SaveEntry) :
    ∀ (m : Machine), l.Pairwise (fun a b => a.slot < b.slot) →
      ∀ e ∈ l, (execCode (l.map SaveEntry.saveInstr) m).mem (m.rsp + 8 * e.slot)
        = m.readReg e.isXmm e.regId := by
  induction l with
  | nil => intro m _ e he; simp at he
  | cons e0 rest ih =>
      intro m hpw e he
      have hpw' := List.pairwise_cons.mp hpw
      simp only [List.map_cons, execCode, List.foldl_cons]
      rw [execInstr_saveInstr]
      set m' : Machine :=
        m.storeAt (m.rsp + 8 * e0.slot) (m.readReg e0.isXmm e0.regId) with hm'
      rcases List.mem_cons.mp he with rfl | he'
      · have hother : ∀ e' ∈ rest, m'.rsp + 8 * e'.slot ≠ m.rsp + 8 * e.slot := by
          intro e' he'
          have := hpw'.1 e' he'
          simp only [hm', Machine.storeAt]
          intro hEq
          omega
        have := exec_saves_mem_other rest m' (m.rsp + 8 * e.slot) hother
        simp only [execCode] at this
        rw [this]
        simp [hm', Machine.storeAt]
      · have := ih m' hpw'.2 e he'
        simp only [execCode] at this
        simp only [hm', Machine.storeAt] at this ⊢
        simpa using this

/-- Executing one restore instruction preserves the stack pointer and
memory, loads the saved slot into its register, and leaves every other
register alone. -/
lemma execInstr_restore_basic (e : SaveEntry) (m : Machine) :
    (execInstr m e.restoreInstr).rsp = m.rsp ∧
    (execInstr m e.restoreInstr).mem = m.mem ∧
    (execInstr m e.restoreInstr).readReg e.isXmm e.regId
      = m.mem (m.rsp + 8 * e.slot) ∧
    ∀ k i, ¬(e.isXmm = k ∧ e.regId = i) →
      (execInstr m e.restoreInstr).readReg k i = m.readReg k i := by
  rcases e with ⟨k0, r, s⟩
  cases k0 <;>
    refine ⟨rfl, rfl, by simp [SaveEntry.restoreInstr, execInstr, Machine.readReg], ?_⟩ <;>
    · intro k i h
      cases k <;> simp_all [SaveEntry.restoreInstr, execInstr, Machine.readReg]
      all_goals exact fun hir => absurd hir.symm h

/-- Executing a list of restore instructions preserves the stack pointer
and memory. -/
lemma exec_restores_mem_rsp (l : List SaveEntry) :
    ∀ m : Machine,
      (execCode (l.map SaveEntry.restoreInstr) m).rsp = m.rsp ∧
      (execCode (l.map SaveEntry.restoreInstr) m).mem = m.mem := by
  induction l with
  | nil => intro m; exact ⟨rfl, rfl⟩
  | cons e rest ih =>
      intro m
      simp only [List.map_cons, execCode, List.foldl_cons] at *
      obtain ⟨h1, h2, _, _⟩ := execInstr_restore_basic e m
      obtain ⟨h3, h4⟩ := ih (execInstr m e.restoreInstr)
      exact ⟨h3.trans h1, h4.trans h2⟩

/-- Registers no restore instruction targets keep their values. -/
lemma exec_restores_untouched (l : List SaveEntry) (k : Bool) (i : Nat) :
    ∀ m : Machine, (∀ e ∈ l, ¬(e.isXmm = k ∧ e.regId = i)) →
      (execCode (l.map SaveEntry.restoreInstr) m).readReg k i = m.readReg k i := by
  induction l with
  | nil => intro m _; rfl
  | cons e rest ih =>
      intro m h
      simp only [List.map_cons, execCode, List.foldl_cons] at *
      obtain ⟨_, _, _, h4⟩ := execInstr_restore_basic e m
      exact (ih (execInstr m e.restoreInstr)
        (fun e' he' => h e' (List.mem_cons_of_mem _ he'))).trans
          (h4 k i (h e (List.mem_cons_self _ _)))

/-- If every targeted slot holds the register's original value, executing
the restore instructions brings every targeted register back to its
original value. -/
lemma exec_restores_read (l : List SaveEntry) (origR origX : Nat → Int) :
    ∀ m : Machine,
      (∀ e ∈ l, m.mem (m.rsp + 8 * e.slot)
        = (if e.isXmm then origX e.regId else origR e.regId)) →
      ∀ e ∈ l, (execCode (l.map SaveEntry.restoreInstr) m).readReg e.isXmm e.regId
        = (if e.isXmm then origX e.regId else origR e.regId) := by
  induction l with
  | nil => intro m _ e he; simp at he
  | cons e0 rest ih =>
      intro m hmem e he
      simp only [List.map_cons, execCode, List.foldl_cons]
      obtain ⟨b1, b2, b3, _⟩ := execInstr_restore_basic e0 m
      have hmem' : ∀ e' ∈ rest,
          (execInstr m e0.restoreInstr).mem
              ((execInstr m e0.restoreInstr).rsp + 8 * e'.slot)
            = (if e'.isXmm then origX e'.regId else origR e'.regId) := by
        intro e' he'
        rw [b1, b2]
        exact hmem e' (List.mem_cons_of_mem _ he')
      rcases List.mem_cons.mp he with rfl | he'
      · by_cases hT : ∃ e' ∈ rest, e'.isXmm = e.isXmm ∧ e'.regId = e.regId
        · obtain ⟨e', he', hk, hi⟩ := hT
          have := ih (execInstr m e.restoreInstr) hmem' e' he'
          simp only [execCode] at this
          rw [hk, hi] at this
          exact this
        · push_neg at hT
          have huntouched := exec_restores_untouched rest e.isXmm e.regId
            (execInstr m e.restoreInstr)
            (by
              intro e' he' hcontra
              exact absurd hcontra.2 (hT e' he' hcontra.1))
          simp only [execCode] at huntouched
          rw [huntouched, b3]
          exact hmem e (List.mem_cons_self _ _)
      · have := ih (execInstr m e0.restoreInstr) hmem' e he'
        simp only [execCode] at this
        exact this

/-- Running a concatenation runs the pieces in order. -/
lemma execCode_append (l1 l2 : List FrameInstr) (m : Machine) :
    execCode (l1 ++ l2) m = execCode l2 (execCode l1 m) :=
  List.foldl_append _ _ _ _

/-- Effect of the generated prolog: the stack pointer drops by the frame
size, and each declared save slot holds the saved register's entry value. -/
lemma prolog_effect (L : FrameLayout) (base : BaseRegisterType) (m0 : Machine)
    (hpw : L.saves.Pairwise (fun a b => a.slot < b.slot)) :
    (execCode (makeProlog L base) m0).rsp = m0.rsp - 8 * L.totalSlots ∧
    ∀ e ∈ L.saves,
      (execCode (makeProlog L base) m0).mem
          (m0.rsp - 8 * L.totalSlots + 8 * e.slot)
        = m0.readReg e.isXmm e.regId := by
  have hsub : execInstr m0 (.subRsp (8 * L.totalSlots))
      = { m0 with rsp := m0.rsp - 8 * L.totalSlots } := rfl
  have hregs := exec_saves_regs L.saves { m0 with rsp := m0.rsp - 8 * L.totalSlots }
  have hmem := exec_saves_mem L.saves { m0 with rsp := m0.rsp - 8 * L.totalSlots } hpw
  cases base with
  | unused =>
      have hcode : makeProlog L .unused
          = FrameInstr.subRsp (8 * L.totalSlots) :: L.saves.map SaveEntry.saveInstr := by
        simp [makeProlog]
      rw [hcode]
      simp only [execCode, List.foldl_cons] at *
      rw [hsub]
      exact ⟨hregs.1, fun e he => hmem e he⟩
  | setRbpToOriginalRsp =>
      have hcode : makeProlog L .setRbpToOriginalRsp
          = (FrameInstr.subRsp (8 * L.totalSlots) :: L.saves.map SaveEntry.saveInstr)
            ++ [.leaRbp (8 * L.totalSlots)] := by
        simp [makeProlog]
      rw [hcode, execCode_append]
      simp only [execCode, List.foldl_cons] at *
      rw [hsub]
      constructor
      · exact hregs.1
      · intro e he
        exact hmem e he

/-- Core frame-effect lemma: for any layout whose vector area follows the
integer-save area, running the prolog, an arbitrary register-overwriting
body, and the epilog restores the stack pointer and every saved register. -/
lemma frame_core (L : FrameLayout) (base : BaseRegisterType)
    (hord : L.parameterSlots + L.rxxIds.length ≤ L.xmmStartSlot)
    (bodyRxx bodyXmm : Nat → Int) (m0 : Machine) :
    (execCode (makeEpilog L base)
        { execCode (makeProlog L base) m0 with rxx := bodyRxx, xmm := bodyXmm }).rsp
      = m0.rsp ∧
    ∀ e ∈ L.saves,
      (execCode (makeEpilog L base)
          { execCode (makeProlog L base) m0 with rxx := bodyRxx, xmm := bodyXmm
            }).readReg e.isXmm e.regId
        = m0.readReg e.isXmm e.regId := by
  have hpw := saves_pairwise_of L hord
  obtain ⟨hrsp1, hmem1⟩ := prolog_effect L base m0 hpw
  set m2 : Machine :=
    { execCode (makeProlog L base) m0 with rxx := bodyRxx, xmm := bodyXmm } with hm2
  have hm2rsp : m2.rsp = m0.rsp - 8 * L.totalSlots := hrsp1
  have hm2mem : ∀ e ∈ L.saves,
      m2.mem (m2.rsp + 8 * e.slot) = m0.readReg e.isXmm e.regId := by
    intro e he
    rw [hm2rsp]
    exact hmem1 e he
  have hepi : makeEpilog L base
      = L.saves.reverse.map SaveEntry.restoreInstr
        ++ [.addRsp (8 * L.totalSlots), .ret] := rfl
  rw [hepi, execCode_append]
  obtain ⟨hrrsp, _⟩ := exec_restores_mem_rsp L.saves.reverse m2
  have hread := exec_restores_read L.saves.reverse m0.rxx m0.xmm m2
    (by
      intro e he
      have he' := List.mem_reverse.mp he
      have := hm2mem e he'
      rcases e with ⟨k, r, s⟩
      cases k <;> simpa [Machine.readReg] using this)
  set mr : Machine := execCode (L.saves.reverse.map SaveEntry.restoreInstr) m2 with hmr
  constructor
  · show (execCode [FrameInstr.addRsp (8 * L.totalSlots), .ret] mr).rsp = m0.rsp
    have : (execCode [FrameInstr.addRsp (8 * L.totalSlots), .ret] mr).rsp
        = mr.rsp + 8 * L.totalSlots := rfl
    rw [this, hrrsp, hm2rsp]
    ring
  · intro e he
    have hlast : ∀ k i, (execCode [FrameInstr.addRsp (8 * L.totalSlots), .ret] mr).readReg k i
        = mr.readReg k i := by
      intro k i
      cases k <;> rfl
    rw [hlast]
    have := hread e (List.mem_reverse.mpr he)
    rcases e with ⟨k, r, s⟩
    cases k <;> simpa [Machine.readReg] using this

/-- C6: for every frame configuration, executing the generated prolog, then
an arbitrary body that overwrites the integer and vector register files
(leaving the stack pointer and frame memory alone, as generated bodies do),
then the generated epilog leaves the stack pointer exactly at its entry
value, and every nonvolatile register declared in the integer/vector save
masks holds, after the epilog, the value it held before the prolog. -/
theorem Frame_registerPreservation (maxFunctionCallParameters : Int)
    (localStackSlotCount rxxSavesMask xmmSavesMask : Nat)
    (baseRegisterType : BaseRegisterType) (bodyRxx bodyXmm : Nat → Int)
    (m0 : Machine) :
    (runFrame maxFunctionCallParameters localStackSlotCount rxxSavesMask
        xmmSavesMask baseRegisterType bodyRxx bodyXmm m0).rsp = m0.rsp ∧
    (∀ i, i < 16 → rxxSavesMask.testBit i →
      (runFrame maxFunctionCallParameters localStackSlotCount rxxSavesMask
          xmmSavesMask baseRegisterType bodyRxx bodyXmm m0).rxx i = m0.rxx i) ∧
    (∀ i, i < 16 → xmmSavesMask.testBit i →
      (runFrame maxFunctionCallParameters localStackSlotCount rxxSavesMask
          xmmSavesMask baseRegisterType bodyRxx bodyXmm m0).xmm i = m0.xmm i) := by
  have hcore := frame_core
    (computeLayout maxFunctionCallParameters localStackSlotCount rxxSavesMask
      xmmSavesMask baseRegisterType) baseRegisterType
    (computeLayout_xmmStart maxFunctionCallParameters localStackSlotCount
      rxxSavesMask xmmSavesMask baseRegisterType) bodyRxx bodyXmm m0
  have hrun : runFrame maxFunctionCallParameters localStackSlotCount rxxSavesMask
      xmmSavesMask baseRegisterType bodyRxx bodyXmm m0
      = execCode
          (makeEpilog
            (computeLayout maxFunctionCallParameters localStackSlotCount
              rxxSavesMask xmmSavesMask baseRegisterType) baseRegisterType)
          { execCode
              (makeProlog
                (computeLayout maxFunctionCallParameters localStackSlotCount
                  rxxSavesMask xmmSavesMask baseRegisterType) baseRegisterType) m0
            with rxx := bodyRxx, xmm := bodyXmm } := rfl
  refine ⟨by rw [hrun]; exact hcore.1, ?_, ?_⟩
  · intro i hi hbit
    have hIds : i ∈ (computeLayout maxFunctionCallParameters localStackSlotCount
        rxxSavesMask xmmSavesMask baseRegisterType).rxxIds := by
      simp only [computeLayout, maskToIds]
      refine List.mem_filter.mpr ⟨List.mem_range.mpr hi, ?_⟩
      simp [Nat.testBit_or, hbit]
    obtain ⟨s, hs⟩ := buildSaves_mem_of _ _ i hIds
    have hesaves : (⟨false, i, s⟩ : SaveEntry)
        ∈ (computeLayout maxFunctionCallParameters localStackSlotCount
            rxxSavesMask xmmSavesMask baseRegisterType).saves :=
      List.mem_append_left _ hs
    have := hcore.2 ⟨false, i, s⟩ hesaves
    rw [hrun]
    simpa [Machine.readReg] using this
  · intro i hi hbit
    have hIds : i ∈ (computeLayout maxFunctionCallParameters localStackSlotCount
        rxxSavesMask xmmSavesMask baseRegisterType).xmmIds := by
      simp only [computeLayout, maskToIds]
      exact List.mem_filter.mpr ⟨List.mem_range.mpr hi, hbit⟩
    obtain ⟨s, hs⟩ := buildSaves_mem_of _ _ i hIds
    have hesaves : (⟨true, i, s⟩ : SaveEntry)
        ∈ (computeLayout maxFunctionCallParameters localStackSlotCount
            rxxSavesMask xmmSavesMask baseRegisterType).saves :=
      List.mem_append_right _ hs
    have := hcore.2 ⟨true, i, s⟩ hesaves
    rw [hrun]
    simpa [Machine.readReg] using this

/-- A concrete entry machine used to exercise the preservation theorem. -/
def frameDemoMachine : Machine :=
  { rsp := 1000
    rxx := fun i => (i : Int) + 100
    xmm := fun i => (i : Int) + 200
    mem := fun _ => 7 }

/-- Witness for C6: a concrete frame (one call argument, two locals, RBX in
the integer mask, XMM10 in the vector mask, frame pointer set) with a body
that wipes both register files; the saved registers and the stack pointer
come back. -/
theorem Frame_registerPreservation_witness :
    3 < 16 ∧ Nat.testBit 8 3 = true ∧ 10 < 16 ∧ Nat.testBit 1024 10 = true ∧
    (runFrame 1 2 8 1024 .setRbpToOriginalRsp (fun _ => 0) (fun _ => -1)
        frameDemoMachine).rsp = frameDemoMachine.rsp ∧
    (runFrame 1 2 8 1024 .setRbpToOriginalRsp (fun _ => 0) (fun _ => -1)
        frameDemoMachine).rxx 3 = frameDemoMachine.rxx 3 ∧
    (runFrame 1 2 8 1024 .setRbpToOriginalRsp (fun _ => 0) (fun _ => -1)
        frameDemoMachine).xmm 10 = frameDemoMachine.xmm 10 :=
  ⟨by decide, by decide, by decide, by decide,
   (Frame_registerPreservation 1 2 8 1024 .setRbpToOriginalRsp (fun _ => 0)
      (fun _ => -1) frameDemoMachine).1,
   (Frame_registerPreservation 1 2 8 1024 .setRbpToOriginalRsp (fun _ => 0)
      (fun _ => -1) frameDemoMachine).2.1 3 (by decide) (by decide),
   (Frame_registerPreservation 1 2 8 1024 .setRbpToOriginalRsp (fun _ => 0)
      (fun _ => -1) frameDemoMachine).2.2 10 (by decide) (by decide)⟩

/-- C7: every `FunctionSpecification` produced without a configuration
error carries unwind info with version 1, flags 0, frame-register id 0 and
frame offset 0, and the fixed header size plus the declared code count
times the entry size equals the declared blob length or falls exactly one
entry short of it (the optional alignment entry). -/
theorem UnwindInfo_header_and_length (maxFunctionCallParameters : Int)
    (localStackSlotCount rxxSavesMask xmmSavesMask : Nat)
    (baseRegisterType : BaseRegisterType) (spec : FunctionSpecification)
    (h : FunctionSpecification.make maxFunctionCallParameters localStackSlotCount
        rxxSavesMask xmmSavesMask baseRegisterType = .ok spec) :
    spec.unwindInfo.version = 1 ∧ spec.unwindInfo.flags = 0 ∧
    spec.unwindInfo.frameRegister = 0 ∧ spec.unwindInfo.frameOffset = 0 ∧
    (unwindHeaderSize + spec.unwindInfo.countOfCodes * unwindCodeSize
        = spec.unwindInfoByteLength
      ∨ unwindHeaderSize + spec.unwindInfo.countOfCodes * unwindCodeSize
        = spec.unwindInfoByteLength - unwindCodeSize) := by
  unfold FunctionSpecification.make at h
  cases harr : unwindCodeArray (computeLayout maxFunctionCallParameters
      localStackSlotCount rxxSavesMask xmmSavesMask baseRegisterType) with
  | error e =>
      simp only [harr] at h
      exact Except.noConfusion h
  | ok codes =>
      simp only [harr] at h
      split at h
      · simp at h
      · injection h with h2
        subst h2
        refine ⟨rfl, rfl, rfl, rfl, ?_⟩
        simp only [unwindHeaderSize, unwindCodeSize]
        by_cases hp : codes.length % 2 = 1 <;> simp [hp] <;> omega

/-- A concrete `FunctionSpecification`: max one call argument, no locals,
no saves, no frame pointer (the `FunctionWithCalls` scenario of the unit
tests). -/
def callsFrameSpec : FunctionSpecification :=
  { offsetToOriginalRsp := 40
    prolog := [.subRsp 40]
    epilog := [.addRsp 40, .ret]
    unwindInfo :=
      { version := 1, flags := 0, frameRegister := 0, frameOffset := 0,
        countOfCodes := 1, codes := [.code .allocSmall 4] }
    unwindInfoByteLength := 8 }

/-- Witness for C7: the one-call-argument configuration is produced without
a configuration error and satisfies the header and length conditions. -/
theorem UnwindInfo_header_and_length_witness :
    FunctionSpecification.make 1 0 0 0 .unused = .ok callsFrameSpec ∧
    (callsFrameSpec.unwindInfo.version = 1 ∧ callsFrameSpec.unwindInfo.flags = 0 ∧
     callsFrameSpec.unwindInfo.frameRegister = 0 ∧
     callsFrameSpec.unwindInfo.frameOffset = 0 ∧
     (unwindHeaderSize + callsFrameSpec.unwindInfo.countOfCodes * unwindCodeSize
        = callsFrameSpec.unwindInfoByteLength
      ∨ unwindHeaderSize + callsFrameSpec.unwindInfo.countOfCodes * unwindCodeSize
        = callsFrameSpec.unwindInfoByteLength - unwindCodeSize)) :=
  ⟨rfl, UnwindInfo_header_and_length 1 0 0 0 .unused callsFrameSpec rfl⟩

/-- C8: a `FunctionSpecification` with no calls, no locals, empty save
masks, and no frame pointer still reserves one 8-byte slot: its offset to
the original stack pointer is 8 and its unwind info holds exactly one code,
a small allocation with operand 0 (one slot). -/
theorem Trivial_frame_scenario :
    (FunctionSpecification.make (-1) 0 0 0 .unused).map
        (fun s => (s.offsetToOriginalRsp, s.unwindInfo.countOfCodes,
          s.unwindInfo.codes))
      = .ok (8, 1, [.code .allocSmall 0]) := rfl

/-- C9: the complex configuration (max 1 call argument, 2 local slots,
frame pointer set, XMM10 and XMM11 saved) has total frame size 104 and
exactly 7 unwind codes, stored in reverse of prolog emission order: the
XMM11 save pair (16-byte offset 4), the XMM10 save pair (16-byte offset 3),
the base-register save pair (quadword offset 4), and a small allocation
with operand 12 (thirteen slots). -/
theorem Complex_frame_scenario :
    (FunctionSpecification.make 1 2 0 (2 ^ 10 ||| 2 ^ 11) .setRbpToOriginalRsp).map
        (fun s => (s.offsetToOriginalRsp, s.unwindInfo.countOfCodes,
          s.unwindInfo.codes))
      = .ok (104, 7,
          [.code .saveXmm128 11, .data 4, .code .saveXmm128 10, .data 3,
           .code .saveNonvol 5, .data 4, .code .allocSmall 12]) := rfl

end NativeJIT
